import Mathlib

/-!
# The MySQL per-user statistics collector (`mysql/userstat/userstat.go`)

A shallow embedding of the collector: the per-user store `Users`, `checkUser`,
`GetUserStatistics` and `FormatGraphite`, together with the two library
routines whose results decide what the collector stores and prints
(`strconv.ParseInt` in base 10 at 64 bits, `strconv.FormatFloat` with format
`'f'` and precision 5).

Conventions of the embedding.

* A Go `map[string]T` is an association list `List (String × T)`; reading a key
  takes its first entry, storing replaces that entry or appends a new one. The
  order of the list stands for the order in which a `range` over the map yields
  its entries, which Go leaves unspecified.
* `*MysqlStatPerUser` and `*metrics.Gauge` are held by value: the collector
  creates one fresh record per username and never shares one, so writing
  through the pointer is re-storing the updated record under the same key.
* A run-time panic is an explicit `Fatal` result; the store reached at that
  point is kept in the result.
* The database and its log are collaborators outside this file: the outcome of
  the query is an argument of `GetUserStatistics`, and what is passed to
  `s.Db.Log` is appended to the field `Log`.
-/

namespace Userstat

/-! ## float64 values -/

/-- The values of a Go `float64`: `finite neg m e` is `(-1)^neg * m * 2^e`
(so both zeros are present), besides the two infinities and NaN. Every
float64 is of this shape. -/
inductive Float64 where
  | finite (neg : Bool) (m : Nat) (e : Int)
  | inf (neg : Bool)
  | nan
deriving DecidableEq, Repr

/-- Positive zero, the zero value of `float64`. -/
def Float64.zero : Float64 := .finite false 0 0

/-- The number of low bits that do not fit a 53-bit significand: the least
`k` (searched from `k` upwards, at most `fuel` steps) with `a / 2^k < 2^53`. -/
def excessBits (a : Nat) : Nat → Nat → Nat
  | 0, k => k
  | fuel + 1, k => if a / 2 ^ k < 2 ^ 53 then k else excessBits a fuel (k + 1)

/-- Round a magnitude `a ≤ 2^64` to the nearest integer with a 53-bit
significand, ties to even (IEEE 754 round-to-nearest-even, the rounding of a
Go integer-to-float conversion). -/
def roundToSignificand (a : Nat) : Nat :=
  let sh := excessBits a 11 0
  let q := a / 2 ^ sh
  let r := a % 2 ^ sh
  let q1 := if 2 * r > 2 ^ sh ∨ (2 * r = 2 ^ sh ∧ q % 2 = 1) then q + 1 else q
  q1 * 2 ^ sh

/-- The conversion `float64(field)` of an `int64`. -/
def float64OfInt64 (n : Int) : Float64 :=
  .finite (decide (n < 0)) (roundToSignificand n.natAbs) 0

/-! ## strconv.ParseInt(s, 10, 64) -/

/-- The `Err` field of a `*strconv.NumError`. -/
inductive NumError where
  | ErrSyntax
  | ErrRange
deriving DecidableEq, Repr

/-- The function `lower(c)` of strconv: `c | ('x' - 'X')`. -/
def lower (c : Char) : Nat := c.toNat ||| 32

/-- The value of one digit as `ParseUint` reads it, `none` for a byte that is
neither a decimal digit nor a letter. (Underscores are accepted for base 0
only.) -/
def digitValue (c : Char) : Option Nat :=
  if 48 ≤ c.toNat ∧ c.toNat ≤ 57 then some (c.toNat - 48)
  else if 97 ≤ lower c ∧ lower c ≤ 122 then some (lower c - 97 + 10)
  else none

/-- The largest `uint64`. -/
def maxUint64 : Nat := 2 ^ 64 - 1

/-- The digit loop of `ParseUint` for base 10 and bit size 64, with `n` the
accumulator. -/
def parseUintLoop : List Char → Nat → Nat × Option NumError
  | [], n => (n, none)
  | c :: cs, n =>
    match digitValue c with
    | none => (0, some .ErrSyntax)
    | some d =>
      if d ≥ 10 then (0, some .ErrSyntax)
      else if n ≥ maxUint64 / 10 + 1 then (maxUint64, some .ErrRange)
      else
        let n10 := n * 10
        let n1 := (n10 + d) % 2 ^ 64
        if n1 < n10 ∨ n1 > maxUint64 then (maxUint64, some .ErrRange)
        else parseUintLoop cs n1

/-- The call `strconv.ParseUint(s, 10, 64)` on the characters of `s`. -/
def ParseUint (s : List Char) : Nat × Option NumError :=
  match s with
  | [] => (0, some .ErrSyntax)
  | _ => parseUintLoop s 0

/-- The conversion `int64(x)`: reduction into `[-2^63, 2^63)`. -/
def toInt64 (x : Int) : Int := (x + 2 ^ 63) % 2 ^ 64 - 2 ^ 63

/-- The call `strconv.ParseInt(s, 10, 64)`: the value returned and the error, `none`
standing for `nil`. -/
def ParseInt (s : String) : Int × Option NumError :=
  match s.toList with
  | [] => (0, some .ErrSyntax)
  | c :: cs =>
    let neg := decide (c = '-')
    let digits := if c = '+' ∨ c = '-' then cs else c :: cs
    match ParseUint digits with
    | (_, some .ErrSyntax) => (0, some .ErrSyntax)
    | (un, _) =>
      if !neg ∧ un ≥ 2 ^ 63 then (2 ^ 63 - 1, some .ErrRange)
      else if neg ∧ un > 2 ^ 63 then (-(2 ^ 63), some .ErrRange)
      else
        let n := toInt64 un
        (if neg then toInt64 (-n) else n, none)

/-! ## strconv.FormatFloat(v, 'f', 5, 64) -/

/-- Division rounding to the nearest integer, ties to even. -/
def divRoundHalfEven (num den : Nat) : Nat :=
  let q := num / den
  let r := num % den
  if 2 * r > den ∨ (2 * r = den ∧ q % 2 = 1) then q + 1 else q

/-- The magnitude `m * 2^e`, scaled by `10^5` and rounded to an integer. -/
def scaled5 (m : Nat) (e : Int) : Nat :=
  match e with
  | Int.ofNat k => m * 2 ^ k * 100000
  | Int.negSucc k => divRoundHalfEven (m * 100000) (2 ^ (k + 1))

/-- The five decimal digits of `x % 10^5`, leading zeros kept. -/
def fractionDigits (x : Nat) : List Char :=
  [Nat.digitChar (x / 10000 % 10), Nat.digitChar (x / 1000 % 10),
   Nat.digitChar (x / 100 % 10), Nat.digitChar (x / 10 % 10), Nat.digitChar (x % 10)]

/-- The call `strconv.FormatFloat(v, 'f', 5, 64)`. -/
def FormatFloat : Float64 → String
  | .nan => "NaN"
  | .inf false => "+Inf"
  | .inf true => "-Inf"
  | .finite neg m e =>
    (if neg then "-" else "") ++ Nat.repr (scaled5 m e / 100000) ++ "." ++
      String.mk (fractionDigits (scaled5 m e))

/-! ## Go maps as association lists -/

/-- The lookup `m[k]` with its `ok` flag: the value stored under `k`, if any. -/
def mapGet {α : Type} : List (String × α) → String → Option α
  | [], _ => none
  | (k1, v) :: rest, k => if k1 = k then some v else mapGet rest k

/-- The store `m[k] = v`: replace the value under `k`, or add the key. -/
def mapSet {α : Type} : List (String × α) → String → α → List (String × α)
  | [], k, v => [(k, v)]
  | (k1, v1) :: rest, k, v =>
    if k1 = k then (k1, v) :: rest else (k1, v1) :: mapSet rest k v

/-- The keys of a map. -/
def keys {α : Type} (m : List (String × α)) : List String := m.map Prod.fst

/-! ## The data model -/

/-- Modelled from the spec: `metrics.Gauge` is declared in the `metrics`
package, outside this file's source. The spec: "Gauge: a named numeric metric
holding the last value set", a floating-point value. -/
structure Gauge where
  v : Float64
deriving DecidableEq, Repr

/-- Modelled from the spec: `(*metrics.Gauge).Set`, which makes `v` the value
the gauge holds. -/
def Gauge.Set (_g : Gauge) (v : Float64) : Gauge := { v := v }

/-- Modelled from the spec: `(*metrics.Gauge).Get`, the last value set. -/
def Gauge.Get (g : Gauge) : Float64 := g.v

/-- The metrics of one user (`MysqlStatPerUser`). -/
structure MysqlStatPerUser where
  TotalConnections : Gauge
  ConcurrentConnections : Gauge
  ConnectedTime : Gauge
deriving DecidableEq, Repr

/-- What is handed to `s.Db.Log`: the query's error (possibly `nil`) or the
`*NumError` of a cell. -/
inductive Logged where
  | query (err : Option String)
  | parse (err : NumError) (num : String)
deriving DecidableEq, Repr

/-- The collector `MysqlStatUsers`: the map `Users`, and the errors sent to
the log of `Db` so far. -/
structure MysqlStatUsers where
  Users : List (String × MysqlStatPerUser)
  Log : List Logged
deriving DecidableEq, Repr

/-- The run-time panics of the collector. -/
inductive Fatal where
  | indexOutOfRange
  | nilDereference
deriving DecidableEq, Repr

/-- What `QueryReturnColumnDict` returns: the columns by name, and the error
(`none` for `nil`). -/
structure QueryResult where
  res : List (String × List String)
  err : Option String
deriving DecidableEq, Repr

/-- The slice `res[name]`: the column stored under `name`, the nil slice when
there is none. -/
def column (res : List (String × List String)) (name : String) : List String :=
  (mapGet res name).getD []

/-! ## The collector -/

/-- The constructor `New`: `dbErr` is the error of `tools.New` (`none` for
`nil`). On a connection error no collector is returned; otherwise the map is
empty. -/
def New (dbErr : Option String) : Except String MysqlStatUsers :=
  match dbErr with
  | some e => .error e
  | none => .ok { Users := [], Log := [] }

/-- Modelled from the spec: `misc.InitializeMetrics` is outside this file's
source. The spec: a new entry has "all gauges initialized to zero/unset". -/
def newMysqlStatPerUser (_user : String) : MysqlStatPerUser :=
  { TotalConnections := { v := Float64.zero },
    ConcurrentConnections := { v := Float64.zero },
    ConnectedTime := { v := Float64.zero } }

/-- The call `s.Db.Log(e)`. -/
def MysqlStatUsers.logError (s : MysqlStatUsers) (e : Logged) : MysqlStatUsers :=
  { s with Log := s.Log ++ [e] }

/-- The method `checkUser`: create the entry of `user` when the map has
none. -/
def MysqlStatUsers.checkUser (s : MysqlStatUsers) (user : String) : MysqlStatUsers :=
  match mapGet s.Users user with
  | some _ => s
  | none => { s with Users := mapSet s.Users user (newMysqlStatPerUser user) }

/-- The `switch` of `GetUserStatistics`: set the gauge of `user` that
`queryField` names to `float64(field)`. The lookup `s.Users[user]` of a
missing user yields a nil pointer, whose field access panics. -/
def MysqlStatUsers.setGauge (s : MysqlStatUsers) (user queryField : String) (field : Int) :
    MysqlStatUsers × Option Fatal :=
  if queryField = "total_connections" then
    match mapGet s.Users user with
    | none => (s, some .nilDereference)
    | some p =>
      let p1 : MysqlStatPerUser :=
        { p with TotalConnections := p.TotalConnections.Set (float64OfInt64 field) }
      ({ s with Users := mapSet s.Users user p1 }, none)
  else if queryField = "concurrent_connections" then
    match mapGet s.Users user with
    | none => (s, some .nilDereference)
    | some p =>
      let p1 : MysqlStatPerUser :=
        { p with ConcurrentConnections := p.ConcurrentConnections.Set (float64OfInt64 field) }
      ({ s with Users := mapSet s.Users user p1 }, none)
  else if queryField = "connected_time" then
    match mapGet s.Users user with
    | none => (s, some .nilDereference)
    | some p =>
      let p1 : MysqlStatPerUser :=
        { p with ConnectedTime := p.ConnectedTime.Set (float64OfInt64 field) }
      ({ s with Users := mapSet s.Users user p1 }, none)
  else (s, none)

/-- The inner loop of `GetUserStatistics` over the remaining `fields` of row
`i`: parse `res[queryField][i]`, log a parse error, and set the gauge to the
value `ParseInt` returned in either case. -/
def fieldsLoop (res : List (String × List String)) (i : Nat) (user : String) :
    List String → MysqlStatUsers → MysqlStatUsers × Option Fatal
  | [], s => (s, none)
  | queryField :: rest, s =>
    match (column res queryField)[i]? with
    | none => (s, some .indexOutOfRange)
    | some cell =>
      let s1 := match (ParseInt cell).2 with
        | some e => s.logError (.parse e cell)
        | none => s
      match s1.setGauge user queryField (ParseInt cell).1 with
      | (s2, some f) => (s2, some f)
      | (s2, none) => fieldsLoop res i user rest s2

/-- The three numeric columns, in the order the collector reads them. -/
def fields : List String := ["total_connections", "concurrent_connections", "connected_time"]

/-- The outer loop of `GetUserStatistics` over the remaining users of
`res["user"]`, `i` being the index of the first of them. -/
def rowsLoop (res : List (String × List String)) :
    Nat → List String → MysqlStatUsers → MysqlStatUsers × Option Fatal
  | _, [], s => (s, none)
  | i, user :: rest, s =>
    match fieldsLoop res i user fields (s.checkUser user) with
    | (s1, some f) => (s1, some f)
    | (s1, none) => rowsLoop res (i + 1) rest s1

/-- The method `GetUserStatistics` on the outcome `q` of the statistics
query: the collector afterwards, and the panic that ended the call, if any. -/
def MysqlStatUsers.GetUserStatistics (s : MysqlStatUsers) (q : QueryResult) :
    MysqlStatUsers × Option Fatal :=
  if q.res.length = 0 ∨ q.err ≠ none then (s.logError (.query q.err), none)
  else rowsLoop q.res 0 (column q.res "user") s

/-- A sequence of collection cycles, one query outcome each; a panic ends the
process, so the outcomes after it are not processed. -/
def collectAll : MysqlStatUsers → List QueryResult → MysqlStatUsers × Option Fatal
  | s, [] => (s, none)
  | s, q :: rest =>
    match s.GetUserStatistics q with
    | (s1, some f) => (s1, some f)
    | (s1, none) => collectAll s1 rest

/-! ## The formatter -/

/-- An `io.Writer`: `Write` takes the sink's state and the bytes, and returns
the sink's next state and the error (`none` for `nil`). -/
structure Writer (σ : Type) where
  Write : σ → String → σ × Option String

/-- The call `fmt.Fprintln(w, line)`: one `Write` of the line and a newline. -/
def Fprintln {σ : Type} (W : Writer σ) (w : σ) (line : String) : σ × Option String :=
  W.Write w (line ++ "\n")

/-- The body of the loop of `FormatGraphite` for one entry: three calls of
`Fprintln`, the result of each discarded. -/
def formatUser {σ : Type} (W : Writer σ) (w : σ) (username : String) (user : MysqlStatPerUser) :
    σ :=
  let w1 := (Fprintln W w
    (username ++ ".TotalConnections " ++ FormatFloat user.TotalConnections.Get)).1
  let w2 := (Fprintln W w1
    (username ++ ".ConcurrentConnections " ++ FormatFloat user.ConcurrentConnections.Get)).1
  (Fprintln W w2 (username ++ ".ConnectedTime " ++ FormatFloat user.ConnectedTime.Get)).1

/-- The loop of `FormatGraphite` over the entries the map iteration yields. -/
def formatLoop {σ : Type} (W : Writer σ) : List (String × MysqlStatPerUser) → σ → σ
  | [], w => w
  | (username, user) :: rest, w => formatLoop W rest (formatUser W w username user)

/-- The method `FormatGraphite`: the sink afterwards and the error returned. -/
def MysqlStatUsers.FormatGraphite {σ : Type} (s : MysqlStatUsers) (W : Writer σ) (w : σ) :
    σ × Option String :=
  (formatLoop W s.Users w, none)

/-! ## Specification-side descriptions -/

/-- The record `p` with the gauge that `queryField` names holding
`float64(field)`; a name that is none of the three leaves `p` as it is. -/
def setField (p : MysqlStatPerUser) (queryField : String) (field : Int) : MysqlStatPerUser :=
  if queryField = "total_connections" then
    { p with TotalConnections := { v := float64OfInt64 field } }
  else if queryField = "concurrent_connections" then
    { p with ConcurrentConnections := { v := float64OfInt64 field } }
  else if queryField = "connected_time" then
    { p with ConnectedTime := { v := float64OfInt64 field } }
  else p

/-- The record of a user after the cells of row `i` in the columns `fs` have
been applied to `p` in turn, up to the first missing cell. -/
def applyFields (res : List (String × List String)) (i : Nat) :
    List String → MysqlStatPerUser → MysqlStatPerUser
  | [], p => p
  | f :: fs, p =>
    match (column res f)[i]? with
    | none => p
    | some cell => applyFields res i fs (setField p f (ParseInt cell).1)

/-- A successful statistics result as the spec describes it: no error and the
four columns present, the numeric ones as long as the user column. -/
def QueryResult.IsTable (q : QueryResult) (users tc cc ct : List String) : Prop :=
  q.err = none ∧ mapGet q.res "user" = some users ∧
  mapGet q.res "total_connections" = some tc ∧
  mapGet q.res "concurrent_connections" = some cc ∧
  mapGet q.res "connected_time" = some ct ∧
  tc.length = users.length ∧ cc.length = users.length ∧ ct.length = users.length

/-- A result without rows: no column at all, or every column empty. -/
def zeroRows (res : List (String × List String)) : Prop := ∀ col ∈ res, col.2 = []

/-- A gauge holding `float64(n)`. -/
def gaugeOf (n : Int) : Gauge := { v := float64OfInt64 n }

/-- The record with the three gauges holding `float64` of `x`, `y`, `z`. -/
def perUserOf (x y z : Int) : MysqlStatPerUser :=
  { TotalConnections := gaugeOf x, ConcurrentConnections := gaugeOf y, ConnectedTime := gaugeOf z }

/-- A sample store: `bob` with gauges 7, 8, 9. -/
def sampleStore : MysqlStatUsers := { Users := [("bob", perUserOf 7 8 9)], Log := [] }

/-- A sample result of one row for `bob` whose `total_connections` is not a
number. -/
def badCellResult : QueryResult :=
  { res := [("user", ["bob"]), ("total_connections", ["x"]),
            ("concurrent_connections", ["2"]), ("connected_time", ["3"])],
    err := none }

/-- A sample result of three rows; `alice` is named by the first and the last. -/
def sampleResult : QueryResult :=
  { res := [("user", ["alice", "carol", "alice"]), ("total_connections", ["10", "5", "11"]),
            ("concurrent_connections", ["2", "1", "4"]), ("connected_time", ["345", "6", "7"])],
    err := none }

/-- A sample result whose columns are present and empty. -/
def noRowsResult : QueryResult :=
  { res := [("user", []), ("total_connections", []), ("concurrent_connections", []),
            ("connected_time", [])],
    err := none }

/-- A sample result of two rows with distinct users. -/
def distinctResult : QueryResult :=
  { res := [("user", ["alice", "carol"]), ("total_connections", ["10", "5"]),
            ("concurrent_connections", ["2", "1"]), ("connected_time", ["345", "6"])],
    err := none }

/-- The three lines of one user, in the order `FormatGraphite` prints them,
without the newline `Fprintln` adds. -/
def userLines (username : String) (user : MysqlStatPerUser) : List String :=
  [username ++ ".TotalConnections " ++ FormatFloat user.TotalConnections.v,
   username ++ ".ConcurrentConnections " ++ FormatFloat user.ConcurrentConnections.v,
   username ++ ".ConnectedTime " ++ FormatFloat user.ConnectedTime.v]

/-- The lines of a store: the three lines of each entry, entry after entry. -/
def graphiteLines : List (String × MysqlStatPerUser) → List String
  | [] => []
  | (username, user) :: rest => userLines username user ++ graphiteLines rest

/-- Hand each line, newline added, to the sink in turn, whatever the sink
answers. -/
def writeAll {σ : Type} (W : Writer σ) : List String → σ → σ
  | [], w => w
  | line :: rest, w => writeAll W rest (W.Write w (line ++ "\n")).1

/-- Fixed-point notation with exactly five fractional digits: an optional
minus sign, at least one digit, a point, five digits. -/
def IsFixedPoint5 (str : String) : Prop :=
  ∃ sign ip fr : List Char, str = String.mk (sign ++ ip ++ '.' :: fr) ∧
    (sign = [] ∨ sign = ['-']) ∧ ip ≠ [] ∧ (∀ c ∈ ip, c.isDigit = true) ∧
    fr.length = 5 ∧ ∀ c ∈ fr, c.isDigit = true

/-- A sink wrapped so that it also records every chunk handed to `Write`,
accepted or not. -/
def recording {σ : Type} (W : Writer σ) : Writer (σ × List String) :=
  { Write := fun st b => (((W.Write st.1 b).1, st.2 ++ [b]), (W.Write st.1 b).2) }

/-- A sink that accepts nothing: every `Write` returns an error. -/
def closedWriter : Writer Unit :=
  { Write := fun _ _ => ((), some "write on closed sink") }

/-- A sink that accepts everything and appends it (a byte buffer). -/
def bufferWriter : Writer String :=
  { Write := fun w b => (w ++ b, none) }

/-- An integer-valued finite `float64`: `(-1)^neg * m` for some `neg`, `m`. -/
def Float64.IsIntegral (v : Float64) : Prop := ∃ (neg : Bool) (m : Nat), v = .finite neg m 0

/-- All three gauges of a record hold integer-valued finite values. -/
def MysqlStatPerUser.GaugesIntegral (p : MysqlStatPerUser) : Prop :=
  p.TotalConnections.Get.IsIntegral ∧ p.ConcurrentConnections.Get.IsIntegral ∧
  p.ConnectedTime.Get.IsIntegral

/-- Every gauge of every entry of the map holds an integer-valued finite
value. -/
def StoreIntegral (users : List (String × MysqlStatPerUser)) : Prop :=
  ∀ e ∈ users, e.2.GaugesIntegral

/-- A sample store as the collector builds it: the one `New` returns, after
the cycles `distinctResult`, `badCellResult`. -/
def sampleCollected : MysqlStatUsers :=
  (collectAll { Users := [], Log := [] } [distinctResult, badCellResult]).1

/-! ## Two goroutines on one collector

`FormatGraphite` may run while `GetUserStatistics` runs. The steps below are
the accesses of the two functions to the shared map and to `nLock`, in program
order; a schedule picks which goroutine takes its next step. -/

/-- The steps of the goroutine in `GetUserStatistics` that touch `nLock` or
the map. -/
inductive Op where
  /-- The call `s.nLock.Lock()` (lines 78 and 102). -/
  | Lock
  /-- The call `s.nLock.Unlock()` (lines 82 and 112). -/
  | Unlock
  /-- Lines 79-81 of `checkUser`: insert the entry of `user` if it is missing. -/
  | CheckInsert (user : String)
  /-- Lines 104-111: set the gauge of `user` that `queryField` names. -/
  | SetGauge (user queryField : String) (field : Int)
  /-- An index out of range in `res[queryField][i]`. -/
  | Panic
deriving DecidableEq, Repr

/-- The steps of the inner loop of `GetUserStatistics` for row `i`. -/
def fieldsOps (res : List (String × List String)) (i : Nat) (user : String) :
    List String → List Op
  | [] => []
  | queryField :: rest =>
    match (column res queryField)[i]? with
    | none => [.Panic]
    | some cell =>
      [.Lock, .SetGauge user queryField (ParseInt cell).1, .Unlock] ++
        fieldsOps res i user rest

/-- The steps of the outer loop of `GetUserStatistics`: `checkUser`, then the
fields of the row. -/
def rowsOps (res : List (String × List String)) : Nat → List String → List Op
  | _, [] => []
  | i, user :: rest =>
    [.Lock, .CheckInsert user, .Unlock] ++ fieldsOps res i user fields ++
      rowsOps res (i + 1) rest

/-- The steps of `GetUserStatistics` on the outcome `q`. -/
def getUserStatisticsOps (q : QueryResult) : List Op :=
  if q.res.length = 0 ∨ q.err ≠ none then [] else rowsOps q.res 0 (column q.res "user")

/-- The shared map and lock, and where each goroutine stands. `ranging` is
`some i` while `FormatGraphite` is inside its `range s.Users` with `i` entries
yielded so far; `rangeRaced` records a key inserted into the map while that
range was in progress. -/
structure Goroutines where
  Users : List (String × MysqlStatPerUser)
  nLock : Bool
  collector : List Op
  ranging : Option Nat
  returned : Bool
  printed : List String
  rangeRaced : Bool

/-- Which goroutine takes the next step. -/
inductive Turn where
  | formatter
  | collector
deriving DecidableEq, Repr

/-- Both goroutines at their first statement. -/
def Goroutines.start (s : MysqlStatUsers) (q : QueryResult) : Goroutines :=
  { Users := s.Users, nLock := false, collector := getUserStatisticsOps q, ranging := none,
    returned := false, printed := [], rangeRaced := false }

/-- One step of the goroutine in `GetUserStatistics`; `none` when it cannot
move (it has finished, or it waits for the lock). -/
def Goroutines.stepCollector (c : Goroutines) : Option Goroutines :=
  match c.collector with
  | [] => none
  | .Lock :: rest => if c.nLock then none else some { c with nLock := true, collector := rest }
  | .Unlock :: rest => some { c with nLock := false, collector := rest }
  | .CheckInsert user :: rest =>
    match mapGet c.Users user with
    | some _ => some { c with collector := rest }
    | none =>
      some { c with Users := mapSet c.Users user (newMysqlStatPerUser user), collector := rest,
                    rangeRaced := c.rangeRaced || c.ranging.isSome }
  | .SetGauge user queryField field :: rest =>
    match mapGet c.Users user with
    | none => some { c with collector := [] }
    | some p =>
      some { c with Users := mapSet c.Users user (setField p queryField field),
                    collector := rest }
  | .Panic :: _ => some { c with collector := [] }

/-- One step of the goroutine in `FormatGraphite`: enter the `range` (line
121), or yield the next entry and print its three lines (lines 122-127), or
leave the loop and return. No step looks at `nLock`. -/
def Goroutines.stepFormatter (c : Goroutines) : Option Goroutines :=
  if c.returned then none
  else
    match c.ranging with
    | none => some { c with ranging := some 0 }
    | some i =>
      match c.Users[i]? with
      | some (username, user) =>
        some { c with ranging := some (i + 1), printed := c.printed ++ userLines username user }
      | none => some { c with ranging := none, returned := true }

/-- Run a schedule; `none` when it asks a goroutine to move that cannot. -/
def Goroutines.exec : Goroutines → List Turn → Option Goroutines
  | c, [] => some c
  | c, .formatter :: rest =>
    match c.stepFormatter with
    | none => none
    | some c1 => Goroutines.exec c1 rest
  | c, .collector :: rest =>
    match c.stepCollector with
    | none => none
    | some c1 => Goroutines.exec c1 rest

/-- The formatter has not started and the lock is free. -/
def Goroutines.Quiet (c : Goroutines) : Prop :=
  c.nLock = false ∧ c.ranging = none ∧ c.rangeRaced = false

/-- A sample result of one row for the new user `alice`. -/
def newUserResult : QueryResult :=
  { res := [("user", ["alice"]), ("total_connections", ["10"]),
            ("concurrent_connections", ["2"]), ("connected_time", ["345"])],
    err := none }

/-! ## Facts about the association-list maps -/

theorem mapGet_mapSet_self {α : Type} (m : List (String × α)) (k : String) (v : α) :
    mapGet (mapSet m k v) k = some v := by
  induction m with
  | nil => simp [mapSet, mapGet]
  | cons hd tl ih =>
    obtain ⟨k1, v1⟩ := hd
    by_cases h : k1 = k
    · simp [mapSet, mapGet, h]
    · simp [mapSet, mapGet, h, ih]

theorem mapGet_mapSet_ne {α : Type} (m : List (String × α)) (k u : String) (v : α)
    (h : u ≠ k) : mapGet (mapSet m k v) u = mapGet m u := by
  induction m with
  | nil => simp [mapSet, mapGet, Ne.symm h]
  | cons hd tl ih =>
    obtain ⟨k1, v1⟩ := hd
    by_cases h1 : k1 = k
    · subst h1
      simp [mapSet, mapGet, Ne.symm h]
    · by_cases h2 : k1 = u
      · subst h2
        simp [mapSet, mapGet, h1]
      · simp [mapSet, mapGet, h1, h2, ih]

theorem mapSet_mapSet {α : Type} (m : List (String × α)) (k : String) (v w : α) :
    mapSet (mapSet m k v) k w = mapSet m k w := by
  induction m with
  | nil => simp [mapSet]
  | cons hd tl ih =>
    obtain ⟨k1, v1⟩ := hd
    by_cases h : k1 = k
    · simp [mapSet, h]
    · simp [mapSet, h, ih]

theorem mapSet_of_mapGet {α : Type} (m : List (String × α)) (k : String) (v : α)
    (h : mapGet m k = some v) : mapSet m k v = m := by
  induction m with
  | nil => simp [mapGet] at h
  | cons hd tl ih =>
    obtain ⟨k1, v1⟩ := hd
    by_cases h1 : k1 = k
    · simp [mapGet, h1] at h
      simp [mapSet, h1, h]
    · simp [mapGet, h1] at h
      simp [mapSet, h1, ih h]

theorem mapGet_eq_none_iff {α : Type} (m : List (String × α)) (k : String) :
    mapGet m k = none ↔ k ∉ keys m := by
  induction m with
  | nil => simp [mapGet, keys]
  | cons hd tl ih =>
    obtain ⟨k1, v1⟩ := hd
    by_cases h1 : k1 = k
    · simp [mapGet, keys, h1]
    · have h2 : ¬ k = k1 := fun h => h1 h.symm
      simp only [keys] at ih
      simp [mapGet, keys, h1, h2, ih]

theorem mem_keys_iff_mapGet {α : Type} (m : List (String × α)) (k : String) :
    k ∈ keys m ↔ ∃ v, mapGet m k = some v := by
  rcases hg : mapGet m k with _ | v
  · have := (mapGet_eq_none_iff m k).1 hg
    simp [this]
  · have : k ∈ keys m := by
      by_contra hc
      rw [(mapGet_eq_none_iff m k).2 hc] at hg
      cases hg
    simp [this]

theorem keys_mapSet_of_mem {α : Type} (m : List (String × α)) (k : String) (v : α)
    (h : k ∈ keys m) : keys (mapSet m k v) = keys m := by
  induction m with
  | nil => simp [keys] at h
  | cons hd tl ih =>
    obtain ⟨k1, v1⟩ := hd
    by_cases h1 : k1 = k
    · simp [mapSet, keys, h1]
    · have h2 : ¬ k = k1 := fun e => h1 e.symm
      have h3 : k ∈ keys tl := by
        simp only [keys, List.map_cons, List.mem_cons] at h
        rcases h with h | h
        · exact absurd h h2
        · exact h
      have := ih h3
      simp only [keys] at this
      simp [mapSet, keys, h1, this]

theorem keys_mapSet_of_not_mem {α : Type} (m : List (String × α)) (k : String) (v : α)
    (h : k ∉ keys m) : keys (mapSet m k v) = keys m ++ [k] := by
  induction m with
  | nil => simp [keys, mapSet]
  | cons hd tl ih =>
    obtain ⟨k1, v1⟩ := hd
    simp only [keys, List.map_cons, List.mem_cons, not_or] at h
    have h1 : ¬ k1 = k := fun e => h.1 e.symm
    have := ih h.2
    simp only [keys] at this
    simp [mapSet, keys, h1, this]

theorem mem_keys_mapSet {α : Type} (m : List (String × α)) (k u : String) (v : α) :
    u ∈ keys (mapSet m k v) ↔ u ∈ keys m ∨ u = k := by
  by_cases h : k ∈ keys m
  · rw [keys_mapSet_of_mem m k v h]
    constructor
    · exact Or.inl
    · rintro (h1 | h1)
      · exact h1
      · exact h1 ▸ h
  · rw [keys_mapSet_of_not_mem m k v h]
    simp

theorem nodup_keys_mapSet {α : Type} (m : List (String × α)) (k : String) (v : α)
    (h : (keys m).Nodup) : (keys (mapSet m k v)).Nodup := by
  by_cases hk : k ∈ keys m
  · rw [keys_mapSet_of_mem m k v hk]
    exact h
  · rw [keys_mapSet_of_not_mem m k v hk]
    exact List.Nodup.append h (List.nodup_singleton k) (by simpa using hk)

/-! ## Facts about the collector's loops -/

theorem setGauge_of_mapGet (s : MysqlStatUsers) (user f : String) (x : Int)
    (p : MysqlStatPerUser) (h : mapGet s.Users user = some p) :
    s.setGauge user f x = ({ s with Users := mapSet s.Users user (setField p f x) }, none) := by
  unfold MysqlStatUsers.setGauge setField
  by_cases h1 : f = "total_connections"
  · simp [h1, h, Gauge.Set]
  · by_cases h2 : f = "concurrent_connections"
    · simp [h1, h2, h, Gauge.Set]
    · by_cases h3 : f = "connected_time"
      · simp [h1, h2, h3, h, Gauge.Set]
      · simp [h1, h2, h3, mapSet_of_mapGet _ _ _ h]

theorem fieldsLoop_users (res : List (String × List String)) (i : Nat) (user : String)
    (fs : List String) (s : MysqlStatUsers) (p : MysqlStatPerUser)
    (h : mapGet s.Users user = some p) :
    (fieldsLoop res i user fs s).1.Users = mapSet s.Users user (applyFields res i fs p) := by
  induction fs generalizing s p with
  | nil => simp [fieldsLoop, applyFields, mapSet_of_mapGet _ _ _ h]
  | cons f fs ih =>
    unfold fieldsLoop applyFields
    rcases hc : (column res f)[i]? with _ | cell
    · simp [mapSet_of_mapGet _ _ _ h]
    · simp only []
      rcases he : (ParseInt cell).2 with _ | e
      · simp only []
        rw [setGauge_of_mapGet s user f _ p h]
        simp only []
        rw [ih _ (setField p f (ParseInt cell).1) (by simp [mapGet_mapSet_self])]
        simp [mapSet_mapSet]
      · simp only []
        rw [setGauge_of_mapGet (s.logError (.parse e cell)) user f _ p
          (by simpa [MysqlStatUsers.logError] using h)]
        simp only []
        rw [ih _ (setField p f (ParseInt cell).1) (by simp [mapGet_mapSet_self])]
        simp [mapSet_mapSet, MysqlStatUsers.logError]

theorem fieldsLoop_fatal (res : List (String × List String)) (i : Nat) (user : String)
    (fs : List String) (s : MysqlStatUsers) (p : MysqlStatPerUser)
    (h : mapGet s.Users user = some p) :
    ((fieldsLoop res i user fs s).2 = none ∨
      (fieldsLoop res i user fs s).2 = some .indexOutOfRange) ∧
    ((fieldsLoop res i user fs s).2 = none ↔ ∀ f ∈ fs, ∃ cell, (column res f)[i]? = some cell) := by
  induction fs generalizing s p with
  | nil => simp [fieldsLoop]
  | cons f fs ih =>
    unfold fieldsLoop
    rcases hc : (column res f)[i]? with _ | cell
    · simp [hc]
    · simp only []
      rcases he : (ParseInt cell).2 with _ | e
      · simp only []
        rw [setGauge_of_mapGet s user f _ p h]
        simp only []
        have := ih { s with Users := mapSet s.Users user (setField p f (ParseInt cell).1) }
          (setField p f (ParseInt cell).1) (by simp [mapGet_mapSet_self])
        simpa [hc] using this
      · simp only []
        rw [setGauge_of_mapGet (s.logError (.parse e cell)) user f _ p
          (by simpa [MysqlStatUsers.logError] using h)]
        simp only []
        have := ih { s.logError (.parse e cell) with
            Users := mapSet (s.logError (.parse e cell)).Users user
              (setField p f (ParseInt cell).1) }
          (setField p f (ParseInt cell).1) (by simp [mapGet_mapSet_self])
        simpa [hc] using this

/-- The record the entry of `user` holds when row `i` starts: its record in
the map, or a new one. -/
theorem checkUser_users (s : MysqlStatUsers) (user : String) :
    (s.checkUser user).Users =
      mapSet s.Users user ((mapGet s.Users user).getD (newMysqlStatPerUser user)) := by
  unfold MysqlStatUsers.checkUser
  rcases h : mapGet s.Users user with _ | p
  · simp
  · simp [mapSet_of_mapGet _ _ _ h]

theorem checkUser_mapGet (s : MysqlStatUsers) (user : String) :
    mapGet (s.checkUser user).Users user =
      some ((mapGet s.Users user).getD (newMysqlStatPerUser user)) := by
  rw [checkUser_users, mapGet_mapSet_self]

theorem row_users (res : List (String × List String)) (i : Nat) (user : String)
    (s : MysqlStatUsers) :
    (fieldsLoop res i user fields (s.checkUser user)).1.Users =
      mapSet s.Users user
        (applyFields res i fields ((mapGet s.Users user).getD (newMysqlStatPerUser user))) := by
  rw [fieldsLoop_users res i user fields _ _ (checkUser_mapGet s user), checkUser_users,
    mapSet_mapSet]

theorem applyFields_fields (res : List (String × List String)) (i : Nat) (p : MysqlStatPerUser)
    (a b c : String) (ha : (column res "total_connections")[i]? = some a)
    (hb : (column res "concurrent_connections")[i]? = some b)
    (hc : (column res "connected_time")[i]? = some c) :
    applyFields res i fields p =
      { TotalConnections := { v := float64OfInt64 (ParseInt a).1 },
        ConcurrentConnections := { v := float64OfInt64 (ParseInt b).1 },
        ConnectedTime := { v := float64OfInt64 (ParseInt c).1 } } := by
  simp [fields, applyFields, ha, hb, hc, setField]

theorem rowsLoop_cons (res : List (String × List String)) (i : Nat) (user : String)
    (rest : List String) (s : MysqlStatUsers) :
    rowsLoop res i (user :: rest) s =
      if (fieldsLoop res i user fields (s.checkUser user)).2 = none then
        rowsLoop res (i + 1) rest (fieldsLoop res i user fields (s.checkUser user)).1
      else fieldsLoop res i user fields (s.checkUser user) := by
  rw [rowsLoop]
  rcases h : fieldsLoop res i user fields (s.checkUser user) with ⟨s1, _ | f⟩ <;> simp

/-- Frame of the row loop: a user outside the rows keeps its record. -/
theorem rowsLoop_frame (res : List (String × List String)) (i : Nat) (users : List String)
    (s : MysqlStatUsers) (u : String) (hu : u ∉ users) :
    mapGet (rowsLoop res i users s).1.Users u = mapGet s.Users u := by
  induction users generalizing i s with
  | nil => simp [rowsLoop]
  | cons user rest ih =>
    simp only [List.mem_cons, not_or] at hu
    have hrow : mapGet (fieldsLoop res i user fields (s.checkUser user)).1.Users u =
        mapGet s.Users u := by
      rw [row_users, mapGet_mapSet_ne _ _ _ _ hu.1]
    rw [rowsLoop_cons]
    split
    · rw [ih _ _ hu.2, hrow]
    · exact hrow

theorem rowsLoop_keys_sub (res : List (String × List String)) (i : Nat) (users : List String)
    (s : MysqlStatUsers) (u : String) (hu : u ∈ keys (rowsLoop res i users s).1.Users) :
    u ∈ keys s.Users ∨ u ∈ users := by
  induction users generalizing i s with
  | nil => simpa [rowsLoop] using hu
  | cons user rest ih =>
    rw [rowsLoop_cons] at hu
    have hrow : ∀ v, v ∈ keys (fieldsLoop res i user fields (s.checkUser user)).1.Users →
        v ∈ keys s.Users ∨ v = user := by
      intro v hv
      rw [row_users, mem_keys_mapSet] at hv
      exact hv
    split at hu
    · rcases ih _ _ hu with h | h
      · rcases hrow u h with h | h
        · exact Or.inl h
        · exact Or.inr (by simp [h])
      · exact Or.inr (by simp [h])
    · rcases hrow u hu with h | h
      · exact Or.inl h
      · exact Or.inr (by simp [h])

theorem rowsLoop_keys_mono (res : List (String × List String)) (i : Nat) (users : List String)
    (s : MysqlStatUsers) (u : String) (hu : u ∈ keys s.Users) :
    u ∈ keys (rowsLoop res i users s).1.Users := by
  induction users generalizing i s with
  | nil => simpa [rowsLoop] using hu
  | cons user rest ih =>
    have hrow : u ∈ keys (fieldsLoop res i user fields (s.checkUser user)).1.Users := by
      rw [row_users, mem_keys_mapSet]
      exact Or.inl hu
    rw [rowsLoop_cons]
    split
    · exact ih _ _ hrow
    · exact hrow

theorem rowsLoop_keys_of_ok (res : List (String × List String)) (i : Nat) (users : List String)
    (s : MysqlStatUsers) (hok : (rowsLoop res i users s).2 = none) (u : String)
    (hu : u ∈ users) : u ∈ keys (rowsLoop res i users s).1.Users := by
  induction users generalizing i s with
  | nil => simp at hu
  | cons user rest ih =>
    rw [rowsLoop_cons] at hok ⊢
    split at hok
    · rename_i hf
      rw [if_pos hf]
      rcases List.mem_cons.1 hu with h | h
      · apply rowsLoop_keys_mono
        rw [row_users, mem_keys_mapSet]
        exact Or.inr h
      · exact ih _ _ hok h
    · rename_i hf
      exact absurd hok hf

theorem rowsLoop_nodup (res : List (String × List String)) (i : Nat) (users : List String)
    (s : MysqlStatUsers) (h : (keys s.Users).Nodup) :
    (keys (rowsLoop res i users s).1.Users).Nodup := by
  induction users generalizing i s with
  | nil => simpa [rowsLoop] using h
  | cons user rest ih =>
    have hrow : (keys (fieldsLoop res i user fields (s.checkUser user)).1.Users).Nodup := by
      rw [row_users]
      exact nodup_keys_mapSet _ _ _ h
    rw [rowsLoop_cons]
    split
    · exact ih _ _ hrow
    · exact hrow

/-- The row loop never dereferences a missing entry: a panic, if any, is an
index out of range. -/
theorem rowsLoop_fatal (res : List (String × List String)) (i : Nat) (users : List String)
    (s : MysqlStatUsers) :
    (rowsLoop res i users s).2 = none ∨ (rowsLoop res i users s).2 = some .indexOutOfRange := by
  induction users generalizing i s with
  | nil => simp [rowsLoop]
  | cons user rest ih =>
    rw [rowsLoop_cons]
    split
    · exact ih _ _
    · exact (fieldsLoop_fatal res i user fields _ _ (checkUser_mapGet s user)).1

/-- The row loop completes when the three numeric columns reach every row. -/
theorem rowsLoop_ok (res : List (String × List String)) (i : Nat) (users : List String)
    (s : MysqlStatUsers)
    (h : ∀ f ∈ fields, i + users.length ≤ (column res f).length) :
    (rowsLoop res i users s).2 = none := by
  induction users generalizing i s with
  | nil => simp [rowsLoop]
  | cons user rest ih =>
    have hrow : (fieldsLoop res i user fields (s.checkUser user)).2 = none := by
      rw [(fieldsLoop_fatal res i user fields _ _ (checkUser_mapGet s user)).2]
      intro f hf
      have := h f hf
      simp only [List.length_cons] at this
      exact ⟨(column res f)[i], List.getElem?_eq_getElem (by omega)⟩
    rw [rowsLoop_cons, if_pos hrow]
    apply ih
    intro f hf
    have := h f hf
    simp only [List.length_cons] at this
    omega

/-- Last value wins: after a completed row loop the record of `u` is made of
the cells of the last row that names `u`. -/
theorem rowsLoop_last (res : List (String × List String)) (i : Nat) (users : List String)
    (s : MysqlStatUsers) (hok : (rowsLoop res i users s).2 = none) (u : String) (k : Nat)
    (hk : users[k]? = some u) (hlast : ∀ j, k < j → users[j]? ≠ some u) (a b c : String)
    (ha : (column res "total_connections")[i + k]? = some a)
    (hb : (column res "concurrent_connections")[i + k]? = some b)
    (hc : (column res "connected_time")[i + k]? = some c) :
    mapGet (rowsLoop res i users s).1.Users u =
      some { TotalConnections := { v := float64OfInt64 (ParseInt a).1 },
             ConcurrentConnections := { v := float64OfInt64 (ParseInt b).1 },
             ConnectedTime := { v := float64OfInt64 (ParseInt c).1 } } := by
  induction users generalizing i s k with
  | nil => simp at hk
  | cons user rest ih =>
    rw [rowsLoop_cons] at hok ⊢
    split at hok
    · rename_i hf
      rw [if_pos hf]
      cases k with
      | zero =>
        simp only [List.getElem?_cons_zero, Option.some.injEq] at hk
        subst hk
        have hnot : user ∉ rest := by
          intro hmem
          obtain ⟨j, hj, hje⟩ := List.getElem_of_mem hmem
          exact hlast (j + 1) (by omega) (by simp [List.getElem?_eq_getElem hj, hje])
        rw [rowsLoop_frame _ _ _ _ _ hnot, row_users, mapGet_mapSet_self,
          applyFields_fields res i _ a b c (by simpa using ha) (by simpa using hb)
            (by simpa using hc)]
      | succ k =>
        simp only [List.getElem?_cons_succ] at hk
        refine ih (i + 1) _ hok k hk ?_ ?_ ?_ ?_
        · intro j hj
          have := hlast (j + 1) (by omega)
          simpa using this
        · rw [← ha]; congr 1; omega
        · rw [← hb]; congr 1; omega
        · rw [← hc]; congr 1; omega
    · rename_i hf
      exact absurd hok hf

/-! ## The collector: `GetUserStatistics` -/

theorem GetUserStatistics_of_table (s : MysqlStatUsers) (q : QueryResult)
    (users tc cc ct : List String) (h : q.IsTable users tc cc ct) :
    s.GetUserStatistics q = rowsLoop q.res 0 users s := by
  obtain ⟨herr, hu, -⟩ := h
  have hne : q.res.length ≠ 0 := by
    intro h0
    rw [List.length_eq_zero.1 h0] at hu
    simp [mapGet] at hu
  simp [MysqlStatUsers.GetUserStatistics, herr, hne, column, hu]

theorem GetUserStatistics_skip (s : MysqlStatUsers) (q : QueryResult)
    (h : q.res.length = 0 ∨ q.err ≠ none) :
    s.GetUserStatistics q = (s.logError (.query q.err), none) := by
  simp only [MysqlStatUsers.GetUserStatistics]
  rw [if_pos h]

theorem GetUserStatistics_run (s : MysqlStatUsers) (q : QueryResult)
    (h : ¬ (q.res.length = 0 ∨ q.err ≠ none)) :
    s.GetUserStatistics q = rowsLoop q.res 0 (column q.res "user") s := by
  simp only [MysqlStatUsers.GetUserStatistics]
  rw [if_neg h]

theorem table_columns (q : QueryResult) (users tc cc ct : List String)
    (h : q.IsTable users tc cc ct) :
    column q.res "total_connections" = tc ∧ column q.res "concurrent_connections" = cc ∧
      column q.res "connected_time" = ct := by
  obtain ⟨-, -, h1, h2, h3, -⟩ := h
  simp [column, h1, h2, h3]

theorem table_ok (s : MysqlStatUsers) (q : QueryResult) (users tc cc ct : List String)
    (h : q.IsTable users tc cc ct) : (rowsLoop q.res 0 users s).2 = none := by
  apply rowsLoop_ok
  obtain ⟨h1, h2, h3⟩ := table_columns q users tc cc ct h
  obtain ⟨-, -, -, -, -, l1, l2, l3⟩ := h
  intro f hf
  simp only [fields, List.mem_cons, List.mem_singleton, List.not_mem_nil, or_false] at hf
  rcases hf with rfl | rfl | rfl
  · rw [h1]; omega
  · rw [h2]; omega
  · rw [h3]; omega

theorem ParseInt_error_value (cell : String) (e : NumError) (h : (ParseInt cell).2 = some e) :
    (e = .ErrSyntax ∧ (ParseInt cell).1 = 0) ∨
    (e = .ErrRange ∧ ((ParseInt cell).1 = 2 ^ 63 - 1 ∨ (ParseInt cell).1 = -(2 ^ 63))) := by
  unfold ParseInt at h ⊢
  split at h
  · simp at h
    simp [← h]
  · rename_i c cs hs
    simp only [] at h ⊢
    split at h
    · simp at h
      simp [← h]
    · split_ifs at h ⊢ <;> simp_all

/-- C2: when the statistics query returns an error, or a result without rows
(no column at all, or every column empty), `GetUserStatistics` leaves the map
`Users` exactly as it was and does not panic. -/
theorem GetUserStatistics_error_or_empty_keeps_store (s : MysqlStatUsers) (q : QueryResult)
    (h : q.err ≠ none ∨ zeroRows q.res) :
    (s.GetUserStatistics q).1.Users = s.Users ∧ (s.GetUserStatistics q).2 = none := by
  by_cases hskip : q.res.length = 0 ∨ q.err ≠ none
  · rw [GetUserStatistics_skip s q hskip]
    simp [MysqlStatUsers.logError]
  · have hz : zeroRows q.res := by
      rcases h with h | h
      · exact absurd (Or.inr h) hskip
      · exact h
    have hcol : column q.res "user" = [] := by
      unfold column
      rcases hg : mapGet q.res "user" with _ | col
      · rfl
      · have key : ∀ (m : List (String × List String)), (∀ c ∈ m, c.2 = []) →
            mapGet m "user" = some col → col = [] := by
          intro m
          induction m with
          | nil => intro _ hm; simp [mapGet] at hm
          | cons hd tl ih =>
            obtain ⟨k1, v1⟩ := hd
            intro hall hm
            by_cases hk : k1 = "user"
            · simp only [mapGet, hk, if_true, Option.some.injEq] at hm
              rw [← hm]
              exact hall (k1, v1) (by simp)
            · simp only [mapGet, hk, if_false] at hm
              exact ih (fun c hc => hall c (by simp [hc])) hm
        simp [key q.res hz hg]
    rw [GetUserStatistics_run s q hskip, hcol]
    simp [rowsLoop]

theorem GetUserStatistics_error_or_empty_keeps_store_witness :
    (sampleStore.GetUserStatistics noRowsResult).1.Users = sampleStore.Users ∧
    (sampleStore.GetUserStatistics noRowsResult).2 = none :=
  GetUserStatistics_error_or_empty_keeps_store sampleStore noRowsResult
    (Or.inr (by simp [zeroRows, noRowsResult]))

/-- C7: whatever the query returned (an error, no rows, or rows), a user that
is in the store before `GetUserStatistics` and is not named in the result's
user column is in the store afterwards with the same three gauge values. -/
theorem GetUserStatistics_keeps_unobserved_users (s : MysqlStatUsers) (q : QueryResult)
    (u : String) (p : MysqlStatPerUser) (h : mapGet s.Users u = some p)
    (hu : u ∉ column q.res "user") :
    mapGet (s.GetUserStatistics q).1.Users u = some p := by
  by_cases hskip : q.res.length = 0 ∨ q.err ≠ none
  · rw [GetUserStatistics_skip s q hskip]
    simpa [MysqlStatUsers.logError] using h
  · rw [GetUserStatistics_run s q hskip, rowsLoop_frame _ _ _ _ _ hu, h]

theorem GetUserStatistics_keeps_unobserved_users_witness :
    mapGet (sampleStore.GetUserStatistics sampleResult).1.Users "bob" = some (perUserOf 7 8 9) :=
  GetUserStatistics_keeps_unobserved_users sampleStore sampleResult "bob" (perUserOf 7 8 9)
    (by decide) (by decide)

/-- C10: on a successful result whose four columns are present and of equal
length, `GetUserStatistics` runs to completion: no cell access is out of
range and no gauge is set through a missing entry. -/
theorem GetUserStatistics_completes_on_table (s : MysqlStatUsers) (q : QueryResult)
    (users tc cc ct : List String) (h : q.IsTable users tc cc ct) :
    (s.GetUserStatistics q).2 = none := by
  rw [GetUserStatistics_of_table s q users tc cc ct h]
  exact table_ok s q users tc cc ct h

theorem GetUserStatistics_completes_on_table_witness :
    (sampleStore.GetUserStatistics sampleResult).2 = none :=
  GetUserStatistics_completes_on_table sampleStore sampleResult
    ["alice", "carol", "alice"] ["10", "5", "11"] ["2", "1", "4"] ["345", "6", "7"]
    (by simp [QueryResult.IsTable, sampleResult, mapGet])

/-- C3: on a successful result whose user column holds pairwise distinct
names, `GetUserStatistics` completes; the usernames of the store afterwards
are those it had before together with those of the result (each once, when
the store had each once); and the three gauges of the user of a row whose
cells parse to `x`, `y`, `z` hold `float64` of `x`, `y`, `z`. -/
theorem GetUserStatistics_distinct_rows (s : MysqlStatUsers) (q : QueryResult)
    (users tc cc ct : List String) (h : q.IsTable users tc cc ct) (hd : users.Nodup) :
    (s.GetUserStatistics q).2 = none ∧
    (∀ u, u ∈ keys (s.GetUserStatistics q).1.Users ↔ u ∈ keys s.Users ∨ u ∈ users) ∧
    ((keys s.Users).Nodup → (keys (s.GetUserStatistics q).1.Users).Nodup) ∧
    (∀ (i : Nat) (u a b c : String) (x y z : Int),
      users[i]? = some u → tc[i]? = some a → cc[i]? = some b → ct[i]? = some c →
      ParseInt a = (x, none) → ParseInt b = (y, none) → ParseInt c = (z, none) →
      mapGet (s.GetUserStatistics q).1.Users u = some (perUserOf x y z)) := by
  have hok := table_ok s q users tc cc ct h
  obtain ⟨c1, c2, c3⟩ := table_columns q users tc cc ct h
  rw [GetUserStatistics_of_table s q users tc cc ct h]
  refine ⟨hok, ?_, rowsLoop_nodup _ _ _ _, ?_⟩
  · intro u
    constructor
    · exact rowsLoop_keys_sub _ _ _ _ u
    · rintro (hu | hu)
      · exact rowsLoop_keys_mono _ _ _ _ u hu
      · exact rowsLoop_keys_of_ok _ _ _ _ hok u hu
  · intro i u a b c x y z hu ha hb hc pa pb pc
    have hlast : ∀ j, i < j → users[j]? ≠ some u := by
      intro j hij hj
      have hi' : i < users.length := (List.getElem?_eq_some_iff.1 hu).1
      have hj' : j < users.length := (List.getElem?_eq_some_iff.1 hj).1
      have e1 : users[i] = u := (List.getElem?_eq_some_iff.1 hu).2
      have e2 : users[j] = u := (List.getElem?_eq_some_iff.1 hj).2
      have := (List.Nodup.getElem_inj_iff hd).1 (e1.trans e2.symm)
      omega
    have := rowsLoop_last q.res 0 users s hok u i hu hlast a b c
      (by rw [c1]; simpa using ha) (by rw [c2]; simpa using hb) (by rw [c3]; simpa using hc)
    rw [this, pa, pb, pc]
    rfl

theorem GetUserStatistics_distinct_rows_witness :
    (sampleStore.GetUserStatistics distinctResult).2 = none ∧
    (∀ u, u ∈ keys (sampleStore.GetUserStatistics distinctResult).1.Users ↔
      u ∈ keys sampleStore.Users ∨ u ∈ ["alice", "carol"]) ∧
    ((keys sampleStore.Users).Nodup →
      (keys (sampleStore.GetUserStatistics distinctResult).1.Users).Nodup) ∧
    (∀ (i : Nat) (u a b c : String) (x y z : Int),
      ["alice", "carol"][i]? = some u → ["10", "5"][i]? = some a → ["2", "1"][i]? = some b →
      ["345", "6"][i]? = some c →
      ParseInt a = (x, none) → ParseInt b = (y, none) → ParseInt c = (z, none) →
      mapGet (sampleStore.GetUserStatistics distinctResult).1.Users u =
        some (perUserOf x y z)) :=
  GetUserStatistics_distinct_rows sampleStore distinctResult
    ["alice", "carol"] ["10", "5"] ["2", "1"] ["345", "6"]
    (by simp [QueryResult.IsTable, distinctResult, mapGet]) (by decide)

/-- C8: on a successful result whose four columns have equal length, when a
user `u` is named by more than one row and the cells of the last of these rows
parse to `x`, `y`, `z`, the store (each username once before the call) holds
one entry for `u` afterwards, and its gauges hold `float64` of `x`, `y`, `z`. -/
theorem GetUserStatistics_last_row_wins (s : MysqlStatUsers) (q : QueryResult)
    (users tc cc ct : List String) (h : q.IsTable users tc cc ct)
    (hs : (keys s.Users).Nodup) (u : String) (i k : Nat) (_hik : i < k)
    (_hi : users[i]? = some u) (hk : users[k]? = some u)
    (hlast : ∀ j, k < j → users[j]? ≠ some u) (a b c : String) (x y z : Int)
    (ha : tc[k]? = some a) (hb : cc[k]? = some b) (hc : ct[k]? = some c)
    (pa : ParseInt a = (x, none)) (pb : ParseInt b = (y, none)) (pc : ParseInt c = (z, none)) :
    (keys (s.GetUserStatistics q).1.Users).count u = 1 ∧
    mapGet (s.GetUserStatistics q).1.Users u = some (perUserOf x y z) := by
  have hok := table_ok s q users tc cc ct h
  obtain ⟨c1, c2, c3⟩ := table_columns q users tc cc ct h
  rw [GetUserStatistics_of_table s q users tc cc ct h]
  constructor
  · apply List.count_eq_one_of_mem (rowsLoop_nodup _ _ _ _ hs)
    exact rowsLoop_keys_of_ok _ _ _ _ hok u (List.getElem?_mem hk)
  · have := rowsLoop_last q.res 0 users s hok u k hk hlast a b c
      (by rw [c1]; simpa using ha) (by rw [c2]; simpa using hb) (by rw [c3]; simpa using hc)
    rw [this, pa, pb, pc]
    rfl

theorem GetUserStatistics_last_row_wins_witness :
    (keys (sampleStore.GetUserStatistics sampleResult).1.Users).count "alice" = 1 ∧
    mapGet (sampleStore.GetUserStatistics sampleResult).1.Users "alice" =
      some (perUserOf 11 4 7) :=
  GetUserStatistics_last_row_wins sampleStore sampleResult
    ["alice", "carol", "alice"] ["10", "5", "11"] ["2", "1", "4"] ["345", "6", "7"]
    (by simp [QueryResult.IsTable, sampleResult, mapGet]) (by decide) "alice" 0 2 (by decide)
    (by decide) (by decide)
    (by intro j hj; rw [List.getElem?_eq_none (by simp; omega)]; simp)
    "11" "4" "7" 11 4 7 (by decide) (by decide) (by decide) (by decide) (by decide) (by decide)

theorem GetUserStatistics_keys (s : MysqlStatUsers) (q : QueryResult)
    (hok : (s.GetUserStatistics q).2 = none) (u : String) :
    u ∈ keys (s.GetUserStatistics q).1.Users ↔
      u ∈ keys s.Users ∨ (q.err = none ∧ q.res.length ≠ 0 ∧ u ∈ column q.res "user") := by
  by_cases hskip : q.res.length = 0 ∨ q.err ≠ none
  · rw [GetUserStatistics_skip s q hskip]
    have : ¬ (q.err = none ∧ q.res.length ≠ 0 ∧ u ∈ column q.res "user") := by
      rintro ⟨h1, h2, -⟩
      rcases hskip with h | h
      · exact h2 h
      · exact h h1
    simp only [MysqlStatUsers.logError]
    constructor
    · exact Or.inl
    · rintro (h | h)
      · exact h
      · exact absurd h this
  · rw [GetUserStatistics_run s q hskip] at hok ⊢
    have hs : q.err = none ∧ q.res.length ≠ 0 := by
      constructor
      · by_contra hc; exact hskip (Or.inr hc)
      · intro hc; exact hskip (Or.inl hc)
    constructor
    · intro h
      rcases rowsLoop_keys_sub _ _ _ _ u h with h | h
      · exact Or.inl h
      · exact Or.inr ⟨hs.1, hs.2, h⟩
    · rintro (h | ⟨-, -, h⟩)
      · exact rowsLoop_keys_mono _ _ _ _ u h
      · exact rowsLoop_keys_of_ok _ _ _ _ hok u h

theorem collectAll_keys (s : MysqlStatUsers) (qs : List QueryResult)
    (hok : (collectAll s qs).2 = none) (u : String) :
    u ∈ keys (collectAll s qs).1.Users ↔
      u ∈ keys s.Users ∨
        ∃ q ∈ qs, q.err = none ∧ q.res.length ≠ 0 ∧ u ∈ column q.res "user" := by
  induction qs generalizing s with
  | nil => simp [collectAll]
  | cons q rest ih =>
    rw [collectAll] at hok ⊢
    rcases hq : s.GetUserStatistics q with ⟨s1, _ | f⟩
    · rw [hq] at hok
      simp only [] at hok ⊢
      have h1 := GetUserStatistics_keys s q (by rw [hq]) u
      rw [hq] at h1
      simp only [] at h1
      rw [ih s1 hok, h1]
      simp only [List.mem_cons, exists_eq_or_imp]
      tauto
    · rw [hq] at hok
      simp at hok

/-- C6: for a run of collection cycles from the collector `New` returns, none
of which panics, a username is a key of the store afterwards exactly when it
stands in the user column of one of the outcomes that carried no query error
and a non-empty result. -/
theorem collectAll_keys_iff_observed (dbErr : Option String) (s0 : MysqlStatUsers)
    (qs : List QueryResult) (hnew : New dbErr = .ok s0) (hok : (collectAll s0 qs).2 = none)
    (u : String) :
    u ∈ keys (collectAll s0 qs).1.Users ↔
      ∃ q ∈ qs, q.err = none ∧ q.res.length ≠ 0 ∧ u ∈ column q.res "user" := by
  have h0 : s0.Users = [] := by
    unfold New at hnew
    split at hnew
    · cases hnew
    · cases hnew; rfl
  rw [collectAll_keys s0 qs hok u, h0]
  simp [keys]

theorem collectAll_keys_iff_observed_witness :
    "carol" ∈ keys (collectAll { Users := [], Log := [] }
        [noRowsResult, distinctResult, badCellResult]).1.Users ↔
      ∃ q ∈ [noRowsResult, distinctResult, badCellResult],
        q.err = none ∧ q.res.length ≠ 0 ∧ "carol" ∈ column q.res "user" :=
  collectAll_keys_iff_observed none { Users := [], Log := [] }
    [noRowsResult, distinctResult, badCellResult] rfl (by decide) "carol"

/-- C1, as the code has it: on a successful result whose four columns have
equal length and in which `u` is named by exactly one row, each of the three
gauges of `u` holds afterwards `float64` of the value `ParseInt` returned for
its cell, whether or not it also returned an error; with an error that value
is 0 (the cell is no decimal integer) or the nearest end of the `int64` range
(the number is out of range). The gauge of a cell that fails to parse does not
keep its previous value. -/
theorem GetUserStatistics_sets_returned_value (s : MysqlStatUsers) (q : QueryResult)
    (users tc cc ct : List String) (h : q.IsTable users tc cc ct) (u : String) (k : Nat)
    (hk : users[k]? = some u) (honly : ∀ j, j ≠ k → users[j]? ≠ some u) (a b c : String)
    (ha : tc[k]? = some a) (hb : cc[k]? = some b) (hc : ct[k]? = some c) :
    mapGet (s.GetUserStatistics q).1.Users u =
      some (perUserOf (ParseInt a).1 (ParseInt b).1 (ParseInt c).1) ∧
    ∀ cell ∈ [a, b, c], ∀ e, (ParseInt cell).2 = some e →
      (e = .ErrSyntax ∧ (ParseInt cell).1 = 0) ∨
      (e = .ErrRange ∧ ((ParseInt cell).1 = 2 ^ 63 - 1 ∨ (ParseInt cell).1 = -(2 ^ 63))) := by
  have hok := table_ok s q users tc cc ct h
  obtain ⟨c1, c2, c3⟩ := table_columns q users tc cc ct h
  rw [GetUserStatistics_of_table s q users tc cc ct h]
  constructor
  · have := rowsLoop_last q.res 0 users s hok u k hk (fun j hj => honly j (by omega)) a b c
      (by rw [c1]; simpa using ha) (by rw [c2]; simpa using hb) (by rw [c3]; simpa using hc)
    rw [this]
    rfl
  · intro cell _ e he
    exact ParseInt_error_value cell e he

theorem GetUserStatistics_sets_returned_value_witness :
    mapGet (sampleStore.GetUserStatistics badCellResult).1.Users "bob" =
      some (perUserOf (ParseInt "x").1 (ParseInt "2").1 (ParseInt "3").1) ∧
    ∀ cell ∈ ["x", "2", "3"], ∀ e, (ParseInt cell).2 = some e →
      (e = .ErrSyntax ∧ (ParseInt cell).1 = 0) ∨
      (e = .ErrRange ∧ ((ParseInt cell).1 = 2 ^ 63 - 1 ∨ (ParseInt cell).1 = -(2 ^ 63))) :=
  GetUserStatistics_sets_returned_value sampleStore badCellResult
    ["bob"] ["x"] ["2"] ["3"] (by simp [QueryResult.IsTable, badCellResult, mapGet]) "bob" 0
    (by decide)
    (by intro j hj; rw [List.getElem?_eq_none (by simp; omega)]; simp)
    "x" "2" "3" (by decide) (by decide) (by decide)

/-- C1 fails as stated: `bob` has `TotalConnections` 7; a row for `bob` whose
`total_connections` cell is `x` (a parse error) leaves the gauge at 0, not at
7, while the other two gauges take the parsed 2 and 3. -/
theorem GetUserStatistics_parse_failure_overwrites :
    (ParseInt "x").2 = some .ErrSyntax ∧
    mapGet sampleStore.Users "bob" = some (perUserOf 7 8 9) ∧
    mapGet (sampleStore.GetUserStatistics badCellResult).1.Users "bob" =
      some (perUserOf 0 2 3) ∧
    gaugeOf 0 ≠ gaugeOf 7 := by
  decide

/-! ## The formatter: `FormatGraphite` -/

theorem formatLoop_eq_writeAll {σ : Type} (W : Writer σ)
    (users : List (String × MysqlStatPerUser)) (w : σ) :
    formatLoop W users w = writeAll W (graphiteLines users) w := by
  induction users generalizing w with
  | nil => rfl
  | cons hd tl ih =>
    obtain ⟨u, p⟩ := hd
    simp [formatLoop, graphiteLines, userLines, writeAll, formatUser, Fprintln, Gauge.Get, ih]

theorem graphiteLines_append (xs ys : List (String × MysqlStatPerUser)) :
    graphiteLines (xs ++ ys) = graphiteLines xs ++ graphiteLines ys := by
  induction xs with
  | nil => rfl
  | cons hd tl ih =>
    obtain ⟨u, p⟩ := hd
    simp [graphiteLines, ih]

theorem graphiteLines_length (xs : List (String × MysqlStatPerUser)) :
    (graphiteLines xs).length = 3 * xs.length := by
  induction xs with
  | nil => rfl
  | cons hd tl ih =>
    obtain ⟨u, p⟩ := hd
    simp [graphiteLines, userLines, ih]
    omega

theorem digitChar_isDigit (d : Nat) (h : d < 10) : (Nat.digitChar d).isDigit = true := by
  interval_cases d <;> decide

theorem toDigitsCore_isDigit (fuel n : Nat) (ds : List Char)
    (h : ∀ c ∈ ds, c.isDigit = true) : ∀ c ∈ Nat.toDigitsCore 10 fuel n ds, c.isDigit = true := by
  induction fuel generalizing n ds with
  | zero => simpa [Nat.toDigitsCore] using h
  | succ fuel ih =>
    have hd : ∀ c ∈ Nat.digitChar (n % 10) :: ds, c.isDigit = true := by
      intro c hc
      rcases List.mem_cons.1 hc with rfl | hc
      · exact digitChar_isDigit _ (Nat.mod_lt _ (by decide))
      · exact h c hc
    rw [Nat.toDigitsCore]
    split
    · exact hd
    · exact ih _ _ hd

theorem toDigitsCore_ne_nil (fuel n : Nat) (ds : List Char) (h : ds ≠ []) :
    Nat.toDigitsCore 10 fuel n ds ≠ [] := by
  induction fuel generalizing n ds with
  | zero => simpa [Nat.toDigitsCore] using h
  | succ fuel ih =>
    rw [Nat.toDigitsCore]
    split
    · simp
    · exact ih _ _ (by simp)

theorem repr_digits (n : Nat) :
    (Nat.repr n).data ≠ [] ∧ ∀ c ∈ (Nat.repr n).data, c.isDigit = true := by
  have e : (Nat.repr n).data = Nat.toDigitsCore 10 (n + 1) n [] := rfl
  rw [e]
  constructor
  · rw [Nat.toDigitsCore]
    split
    · simp
    · exact toDigitsCore_ne_nil _ _ _ (by simp)
  · exact toDigitsCore_isDigit _ _ _ (by simp)

theorem FormatFloat_finite (neg : Bool) (m : Nat) (e : Int) :
    IsFixedPoint5 (FormatFloat (.finite neg m e)) := by
  refine ⟨if neg then ['-'] else [], (Nat.repr (scaled5 m e / 100000)).data,
    fractionDigits (scaled5 m e), ?_, ?_, (repr_digits _).1, (repr_digits _).2, rfl, ?_⟩
  · apply String.ext
    cases neg <;> simp [FormatFloat, String.data_append]
  · cases neg <;> simp
  · intro c hc
    simp only [fractionDigits, List.mem_cons, List.mem_singleton, List.not_mem_nil,
      or_false] at hc
    rcases hc with rfl | rfl | rfl | rfl | rfl <;>
      exact digitChar_isDigit _ (Nat.mod_lt _ (by decide))

/-! ## The library routines on decimal numerals -/

theorem digitValue_digitChar (d : Nat) (h : d < 10) : digitValue (Nat.digitChar d) = some d := by
  interval_cases d <;> decide

theorem parseUintLoop_digit (d n : Nat) (ds : List Char) (hd : d < 10)
    (hn : n * 10 + d ≤ maxUint64) :
    parseUintLoop (Nat.digitChar d :: ds) n = parseUintLoop ds (n * 10 + d) := by
  have hmax : maxUint64 = 18446744073709551615 := by decide
  rw [hmax] at hn
  have h1 : ¬ d ≥ 10 := by omega
  have h2 : ¬ n ≥ maxUint64 / 10 + 1 := by rw [hmax]; omega
  have h3 : (n * 10 + d) % 2 ^ 64 = n * 10 + d := Nat.mod_eq_of_lt (by omega)
  have h4 : ¬ (n * 10 + d < n * 10 ∨ n * 10 + d > maxUint64) := by rw [hmax]; omega
  rw [parseUintLoop, digitValue_digitChar d hd]
  simp only [h1, h2, h3, h4, if_false]

theorem parseUintLoop_toDigitsCore (fuel n : Nat) (ds : List Char) (hf : n < fuel)
    (hn : n ≤ maxUint64) :
    parseUintLoop (Nat.toDigitsCore 10 fuel n ds) 0 = parseUintLoop ds n := by
  induction fuel generalizing n ds with
  | zero => omega
  | succ fuel ih =>
    rw [Nat.toDigitsCore]
    split
    · rename_i h0
      have : n % 10 = n := by omega
      rw [parseUintLoop_digit (n % 10) 0 ds (Nat.mod_lt _ (by decide)) (by omega)]
      simp [this]
    · rename_i h0
      have hmax : maxUint64 = 18446744073709551615 := by decide
      rw [ih (n / 10) _ (by omega) (by omega),
        parseUintLoop_digit (n % 10) (n / 10) ds (Nat.mod_lt _ (by decide)) (by omega)]
      congr 1
      omega

theorem ParseUint_repr (n : Nat) (hn : n ≤ maxUint64) :
    ParseUint (Nat.repr n).data = (n, none) := by
  have e : (Nat.repr n).data = Nat.toDigitsCore 10 (n + 1) n [] := rfl
  have hne := (repr_digits n).1
  unfold ParseUint
  split
  · rename_i h
    exact absurd h hne
  · rw [e, parseUintLoop_toDigitsCore _ _ _ (by omega) hn]
    rfl

theorem toInt64_of_lt (n : Nat) (h : n < 2 ^ 63) : toInt64 n = n := by
  unfold toInt64
  have : (n : Int) < 2 ^ 63 := by exact_mod_cast h
  norm_num at this ⊢
  omega

/-- The model of `ParseInt` reads the decimal numeral of a natural number
below `2^63` as that number, without error. -/
theorem ParseInt_repr (n : Nat) (h : n < 2 ^ 63) : ParseInt (Nat.repr n) = ((n : Int), none) := by
  obtain ⟨hne, hdig⟩ := repr_digits n
  have hU := ParseUint_repr n (by have : maxUint64 = 18446744073709551615 := by decide
                                  rw [this]; norm_num at h; omega)
  unfold ParseInt
  rcases hl : (Nat.repr n).data with _ | ⟨c, cs⟩
  · exact absurd hl hne
  · have hc : c.isDigit = true := hdig c (by rw [hl]; simp)
    have h1 : c ≠ '+' := by rintro rfl; revert hc; decide
    have h2 : c ≠ '-' := by rintro rfl; revert hc; decide
    rw [hl] at hU
    simp only [String.toList, hl, h1, h2, or_self, if_false, hU, decide_False]
    have h3 : ¬ n ≥ 2 ^ 63 := by omega
    simp only [h3, toInt64_of_lt n h]
    simp

/-- The model of `ParseInt` reads a minus sign followed by the decimal
numeral of `n ≤ 2^63` as `-n`, without error. -/
theorem ParseInt_neg_repr (n : Nat) (h : n ≤ 2 ^ 63) :
    ParseInt ("-" ++ Nat.repr n) = (-(n : Int), none) := by
  have hU := ParseUint_repr n (by have : maxUint64 = 18446744073709551615 := by decide
                                  rw [this]; norm_num at h; omega)
  have hl : ("-" ++ Nat.repr n).data = '-' :: (Nat.repr n).data := by
    simp [String.data_append]
  unfold ParseInt
  simp only [String.toList, hl, or_true, if_true, hU, decide_True]
  have h3 : ¬ n > 2 ^ 63 := by omega
  have h4 : toInt64 (-(toInt64 (n : Int))) = -(n : Int) := by
    unfold toInt64
    have : (n : Int) ≤ 2 ^ 63 := by exact_mod_cast h
    norm_num at this ⊢
    omega
  simp only [h3, h4]
  simp

/-- The model of `FormatFloat` prints an integer value as its decimal numeral
followed by five zeros. -/
theorem FormatFloat_integer (neg : Bool) (m : Nat) :
    FormatFloat (.finite neg m 0) = (if neg then "-" else "") ++ Nat.repr m ++ ".00000" := by
  have h0 : scaled5 m 0 = m * 100000 := by
    show m * 2 ^ 0 * 100000 = m * 100000
    simp
  have h1 : m * 100000 / 100000 = m := by omega
  have h2 : fractionDigits (m * 100000) = ['0', '0', '0', '0', '0'] := by
    have a1 : m * 100000 / 10000 % 10 = 0 := by omega
    have a2 : m * 100000 / 1000 % 10 = 0 := by omega
    have a3 : m * 100000 / 100 % 10 = 0 := by omega
    have a4 : m * 100000 / 10 % 10 = 0 := by omega
    have a5 : m * 100000 % 10 = 0 := by omega
    simp only [fractionDigits, a1, a2, a3, a4, a5]
    rfl
  simp only [FormatFloat, h0, h1, h2]
  apply String.ext
  simp [String.data_append]

theorem excessBits_zero (a : Nat) (h : a < 2 ^ 53) : excessBits a 11 0 = 0 := by
  show (if a / 2 ^ 0 < 2 ^ 53 then 0 else excessBits a 10 (0 + 1)) = 0
  rw [if_pos (by simpa using h)]

/-- The conversion to `float64` is exact on integers below `2^53` in
magnitude: the gauge then holds the parsed integer itself. -/
theorem float64OfInt64_exact (n : Int) (h : n.natAbs < 2 ^ 53) :
    float64OfInt64 n = .finite (decide (n < 0)) n.natAbs 0 := by
  simp [float64OfInt64, roundToSignificand, excessBits_zero _ h, Nat.mod_one]

/-! ### The values a collected store holds -/

theorem float64OfInt64_integral (n : Int) : (float64OfInt64 n).IsIntegral :=
  ⟨decide (n < 0), roundToSignificand n.natAbs, rfl⟩

theorem newMysqlStatPerUser_integral (user : String) :
    (newMysqlStatPerUser user).GaugesIntegral :=
  ⟨⟨false, 0, rfl⟩, ⟨false, 0, rfl⟩, ⟨false, 0, rfl⟩⟩

theorem setField_integral (p : MysqlStatPerUser) (f : String) (x : Int)
    (h : p.GaugesIntegral) : (setField p f x).GaugesIntegral := by
  obtain ⟨h1, h2, h3⟩ := h
  unfold setField
  split_ifs
  · exact ⟨float64OfInt64_integral x, h2, h3⟩
  · exact ⟨h1, float64OfInt64_integral x, h3⟩
  · exact ⟨h1, h2, float64OfInt64_integral x⟩
  · exact ⟨h1, h2, h3⟩

theorem applyFields_integral (res : List (String × List String)) (i : Nat) (fs : List String)
    (p : MysqlStatPerUser) (h : p.GaugesIntegral) : (applyFields res i fs p).GaugesIntegral := by
  induction fs generalizing p with
  | nil => simpa [applyFields] using h
  | cons f fs ih =>
    unfold applyFields
    rcases (column res f)[i]? with _ | cell
    · exact h
    · exact ih _ (setField_integral p f _ h)

theorem mem_mapSet {α : Type} (m : List (String × α)) (k : String) (v : α) (e : String × α)
    (h : e ∈ mapSet m k v) : e ∈ m ∨ e = (k, v) := by
  induction m with
  | nil => simpa [mapSet] using h
  | cons hd tl ih =>
    obtain ⟨k1, v1⟩ := hd
    by_cases hk : k1 = k
    · simp only [mapSet, hk, if_true, List.mem_cons] at h
      rcases h with h | h
      · exact Or.inr h
      · exact Or.inl (by simp [h])
    · simp only [mapSet, hk, if_false, List.mem_cons] at h
      rcases h with h | h
      · exact Or.inl (by simp [h])
      · rcases ih h with h | h
        · exact Or.inl (by simp [h])
        · exact Or.inr h

theorem mem_of_mapGet {α : Type} (m : List (String × α)) (k : String) (v : α)
    (h : mapGet m k = some v) : (k, v) ∈ m := by
  induction m with
  | nil => simp [mapGet] at h
  | cons hd tl ih =>
    obtain ⟨k1, v1⟩ := hd
    by_cases hk : k1 = k
    · simp only [mapGet, hk, if_true, Option.some.injEq] at h
      simp [hk, h]
    · simp only [mapGet, hk, if_false] at h
      simp [ih h]

theorem row_integral (res : List (String × List String)) (i : Nat) (user : String)
    (s : MysqlStatUsers) (h : StoreIntegral s.Users) :
    StoreIntegral (fieldsLoop res i user fields (s.checkUser user)).1.Users := by
  rw [row_users]
  intro e he
  rcases mem_mapSet _ _ _ _ he with he | he
  · exact h e he
  · rw [he]
    apply applyFields_integral
    rcases hg : mapGet s.Users user with _ | p
    · exact newMysqlStatPerUser_integral user
    · exact h (user, p) (mem_of_mapGet _ _ _ hg)

theorem rowsLoop_integral (res : List (String × List String)) (i : Nat) (users : List String)
    (s : MysqlStatUsers) (h : StoreIntegral s.Users) :
    StoreIntegral (rowsLoop res i users s).1.Users := by
  induction users generalizing i s with
  | nil => simpa [rowsLoop] using h
  | cons user rest ih =>
    rw [rowsLoop_cons]
    split
    · exact ih _ _ (row_integral res i user s h)
    · exact row_integral res i user s h

theorem GetUserStatistics_integral (s : MysqlStatUsers) (q : QueryResult)
    (h : StoreIntegral s.Users) : StoreIntegral (s.GetUserStatistics q).1.Users := by
  by_cases hskip : q.res.length = 0 ∨ q.err ≠ none
  · rw [GetUserStatistics_skip s q hskip]
    exact h
  · rw [GetUserStatistics_run s q hskip]
    exact rowsLoop_integral _ _ _ _ h

/-- Every store the collector builds, whatever the outcomes of its cycles and
also when a cycle panics, holds integer-valued finite gauges only. -/
theorem collectAll_integral (s : MysqlStatUsers) (qs : List QueryResult)
    (h : StoreIntegral s.Users) : StoreIntegral (collectAll s qs).1.Users := by
  induction qs generalizing s with
  | nil => simpa [collectAll] using h
  | cons q rest ih =>
    have h1 := GetUserStatistics_integral s q h
    rw [collectAll]
    rcases hq : s.GetUserStatistics q with ⟨s1, _ | f⟩
    · rw [hq] at h1
      exact ih s1 h1
    · rw [hq] at h1
      exact h1

/-- C4: for every store the collector builds (the one `New` returns, after
any sequence of collection cycles), `FormatGraphite` hands the sink three
lines per entry (one `Fprintln` each) and nothing else; the lines of a user
stand together, in the order TotalConnections, ConcurrentConnections,
ConnectedTime, each the username copied as it is, a point, the metric name, a
blank and the value; and each value is printed in fixed-point notation with
exactly five fractional digits, namely as the decimal numeral of the integer
the gauge holds followed by `.00000` (123 as `123.00000`). -/
theorem FormatGraphite_three_lines_per_user {σ : Type} (dbErr : Option String)
    (s0 s : MysqlStatUsers) (qs : List QueryResult) (hnew : New dbErr = .ok s0)
    (hs : (collectAll s0 qs).1 = s) (W : Writer σ) (w : σ) :
    s.FormatGraphite W w = (writeAll W (graphiteLines s.Users) w, none) ∧
    (graphiteLines s.Users).length = 3 * s.Users.length ∧
    (∀ pre u p post, s.Users = pre ++ (u, p) :: post →
      graphiteLines s.Users = graphiteLines pre ++
        [u ++ ".TotalConnections " ++ FormatFloat p.TotalConnections.Get,
         u ++ ".ConcurrentConnections " ++ FormatFloat p.ConcurrentConnections.Get,
         u ++ ".ConnectedTime " ++ FormatFloat p.ConnectedTime.Get] ++ graphiteLines post) ∧
    (∀ u p, (u, p) ∈ s.Users →
      ∀ v ∈ [p.TotalConnections.Get, p.ConcurrentConnections.Get, p.ConnectedTime.Get],
        IsFixedPoint5 (FormatFloat v) ∧
        ∃ (neg : Bool) (m : Nat), v = .finite neg m 0 ∧
          FormatFloat v = (if neg then "-" else "") ++ Nat.repr m ++ ".00000") ∧
    FormatFloat (float64OfInt64 123) = "123.00000" := by
  have h0 : StoreIntegral s0.Users := by
    unfold New at hnew
    split at hnew
    · cases hnew
    · cases hnew
      intro e he
      simp at he
  have hint : StoreIntegral s.Users := by
    rw [← hs]
    exact collectAll_integral s0 qs h0
  refine ⟨?_, graphiteLines_length _, ?_, ?_, by decide⟩
  · simp [MysqlStatUsers.FormatGraphite, formatLoop_eq_writeAll]
  · intro pre u p post h
    rw [h, graphiteLines_append]
    simp [graphiteLines, userLines, Gauge.Get]
  · intro u p hp v hv
    obtain ⟨h1, h2, h3⟩ := hint (u, p) hp
    have hv' : v.IsIntegral := by
      simp only [List.mem_cons, List.mem_singleton, List.not_mem_nil, or_false] at hv
      rcases hv with rfl | rfl | rfl
      · exact h1
      · exact h2
      · exact h3
    obtain ⟨neg, m, rfl⟩ := hv'
    exact ⟨FormatFloat_finite neg m 0, neg, m, rfl, FormatFloat_integer neg m⟩

theorem FormatGraphite_three_lines_per_user_witness :
    sampleCollected.FormatGraphite bufferWriter "" =
      (writeAll bufferWriter (graphiteLines sampleCollected.Users) "", none) ∧
    (graphiteLines sampleCollected.Users).length = 3 * sampleCollected.Users.length ∧
    (∀ pre u p post, sampleCollected.Users = pre ++ (u, p) :: post →
      graphiteLines sampleCollected.Users = graphiteLines pre ++
        [u ++ ".TotalConnections " ++ FormatFloat p.TotalConnections.Get,
         u ++ ".ConcurrentConnections " ++ FormatFloat p.ConcurrentConnections.Get,
         u ++ ".ConnectedTime " ++ FormatFloat p.ConnectedTime.Get] ++ graphiteLines post) ∧
    (∀ u p, (u, p) ∈ sampleCollected.Users →
      ∀ v ∈ [p.TotalConnections.Get, p.ConcurrentConnections.Get, p.ConnectedTime.Get],
        IsFixedPoint5 (FormatFloat v) ∧
        ∃ (neg : Bool) (m : Nat), v = .finite neg m 0 ∧
          FormatFloat v = (if neg then "-" else "") ++ Nat.repr m ++ ".00000") ∧
    FormatFloat (float64OfInt64 123) = "123.00000" :=
  FormatGraphite_three_lines_per_user none { Users := [], Log := [] } sampleCollected
    [distinctResult, badCellResult] rfl rfl bufferWriter ""

/-- C5, as the code has it: `FormatGraphite` discards the result of every
write. Whatever the sink answers, every line of the store is handed to it in
turn, also after a write that failed, and the error returned is `nil`. -/
theorem FormatGraphite_ignores_write_errors {σ : Type} (s : MysqlStatUsers) (W : Writer σ)
    (w : σ) :
    (s.FormatGraphite (recording W) (w, [])).1.2 =
      (graphiteLines s.Users).map (fun line => line ++ "\n") ∧
    (s.FormatGraphite (recording W) (w, [])).1.1 = (s.FormatGraphite W w).1 ∧
    (s.FormatGraphite W w).2 = none := by
  have key : ∀ (lines : List String) (w : σ) (seen : List String),
      writeAll (recording W) lines (w, seen) =
        (writeAll W lines w, seen ++ lines.map (fun line => line ++ "\n")) := by
    intro lines
    induction lines with
    | nil => intro w seen; simp [writeAll]
    | cons l ls ih =>
      intro w seen
      have e : (recording W).Write (w, seen) (l ++ "\n") =
          (((W.Write w (l ++ "\n")).1, seen ++ [l ++ "\n"]), (W.Write w (l ++ "\n")).2) := rfl
      rw [writeAll, writeAll, e, ih]
      simp
  simp [MysqlStatUsers.FormatGraphite, formatLoop_eq_writeAll, key]

/-- C5 fails as stated: on a sink whose every write fails, `FormatGraphite`
still attempts all three writes for `bob` and returns `nil`, not the error. -/
theorem FormatGraphite_continues_after_failed_write :
    (closedWriter.Write () "bob.TotalConnections 7.00000\n").2 =
      some "write on closed sink" ∧
    (sampleStore.FormatGraphite (recording closedWriter) ((), [])).1.2 =
      ["bob.TotalConnections 7.00000\n", "bob.ConcurrentConnections 8.00000\n",
       "bob.ConnectedTime 9.00000\n"] ∧
    (sampleStore.FormatGraphite (recording closedWriter) ((), [])).2 = none := by
  decide

/-! ## `FormatGraphite` beside a running `GetUserStatistics` -/

theorem exec_append (c : Goroutines) (xs ys : List Turn) :
    c.exec (xs ++ ys) = (c.exec xs).bind (fun c1 => c1.exec ys) := by
  induction xs generalizing c with
  | nil => simp [Goroutines.exec]
  | cons t ts ih =>
    cases t with
    | formatter =>
      simp only [List.cons_append, Goroutines.exec]
      rcases c.stepFormatter with _ | c1
      · simp
      · simp [ih]
    | collector =>
      simp only [List.cons_append, Goroutines.exec]
      rcases c.stepCollector with _ | c1
      · simp
      · simp [ih]

theorem fieldsOps_exec (res : List (String × List String)) (i : Nat) (user : String)
    (fs : List String) (c : Goroutines) (p : MysqlStatPerUser) (k : List Op)
    (hc : c.collector = fieldsOps res i user fs ++ k) (hq : c.Quiet)
    (hp : mapGet c.Users user = some p) :
    ∃ sch c1, (∀ t ∈ sch, t = Turn.collector) ∧ c.exec sch = some c1 ∧ c1.Quiet ∧
      c1.Users = mapSet c.Users user (applyFields res i fs p) ∧
      ((∀ f ∈ fs, ∃ cell, (column res f)[i]? = some cell) → c1.collector = k) ∧
      ((¬ ∀ f ∈ fs, ∃ cell, (column res f)[i]? = some cell) → c1.collector = []) := by
  induction fs generalizing c p with
  | nil =>
    refine ⟨[], c, by simp, rfl, hq, ?_, ?_, ?_⟩
    · simp [applyFields, mapSet_of_mapGet _ _ _ hp]
    · intro _
      simpa [fieldsOps] using hc
    · intro h
      exact absurd (by simp) h
  | cons f fs ih =>
    obtain ⟨q1, q2, q3⟩ := hq
    rcases hcell : (column res f)[i]? with _ | cell
    · refine ⟨[.collector], { c with collector := [] }, by simp, ?_, ⟨q1, q2, q3⟩, ?_, ?_, ?_⟩
      · simp only [fieldsOps, hcell, List.cons_append, List.nil_append] at hc
        simp [Goroutines.exec, Goroutines.stepCollector, hc]
      · simp [applyFields, hcell, mapSet_of_mapGet _ _ _ hp]
      · intro h
        obtain ⟨cell, hcell2⟩ := h f (by simp)
        rw [hcell] at hcell2
        cases hcell2
      · intro _
        rfl
    · simp only [fieldsOps, hcell, List.cons_append, List.nil_append, List.append_assoc] at hc
      have h3 : c.exec [.collector, .collector, .collector] =
          some { c with Users := mapSet c.Users user (setField p f (ParseInt cell).1),
                        collector := fieldsOps res i user fs ++ k } := by
        simp [Goroutines.exec, Goroutines.stepCollector, hc, q1, hp]
      obtain ⟨sch, c1, hs, he, hq1, hu1, hk1, hk2⟩ :=
        ih { c with Users := mapSet c.Users user (setField p f (ParseInt cell).1),
                    collector := fieldsOps res i user fs ++ k }
          (setField p f (ParseInt cell).1) rfl ⟨q1, q2, q3⟩ (by simp [mapGet_mapSet_self])
      refine ⟨[.collector, .collector, .collector] ++ sch, c1, ?_, ?_, hq1, ?_, ?_, ?_⟩
      · intro t ht
        rcases List.mem_append.1 ht with h | h
        · simpa using h
        · exact hs t h
      · rw [exec_append, h3]
        simpa using he
      · rw [hu1]
        simp [applyFields, hcell, mapSet_mapSet]
      · intro h
        exact hk1 (fun g hg => h g (by simp [hg]))
      · intro h
        apply hk2
        intro h2
        apply h
        intro g hg
        rcases List.mem_cons.1 hg with rfl | hg
        · exact ⟨cell, hcell⟩
        · exact h2 g hg

theorem rowsOps_exec (res : List (String × List String)) (i : Nat) (users : List String)
    (c : Goroutines) (s : MysqlStatUsers) (hc : c.collector = rowsOps res i users)
    (hq : c.Quiet) (hu : c.Users = s.Users) :
    ∃ sch c1, (∀ t ∈ sch, t = Turn.collector) ∧ c.exec sch = some c1 ∧ c1.Quiet ∧
      c1.Users = (rowsLoop res i users s).1.Users ∧ c1.collector = [] := by
  induction users generalizing i c s with
  | nil =>
    refine ⟨[], c, by simp, rfl, hq, ?_, ?_⟩
    · simpa [rowsLoop] using hu
    · simpa [rowsOps] using hc
  | cons user rest ih =>
    obtain ⟨q1, q2, q3⟩ := hq
    simp only [rowsOps, List.cons_append, List.nil_append, List.append_assoc] at hc
    have h3 : c.exec [.collector, .collector, .collector] =
        some { c with Users := (s.checkUser user).Users,
                      collector := fieldsOps res i user fields ++ rowsOps res (i + 1) rest } := by
      rcases hg : mapGet s.Users user with _ | p
      · simp [Goroutines.exec, Goroutines.stepCollector, hc, q1, q2, q3, hu, hg,
          MysqlStatUsers.checkUser]
      · simp [Goroutines.exec, Goroutines.stepCollector, hc, q1, hu, hg,
          MysqlStatUsers.checkUser]
    obtain ⟨sch, c1, hs, he, hq1, hu1, hk1, hk2⟩ :=
      fieldsOps_exec res i user fields
        { c with Users := (s.checkUser user).Users,
                 collector := fieldsOps res i user fields ++ rowsOps res (i + 1) rest }
        _ (rowsOps res (i + 1) rest) rfl ⟨q1, q2, q3⟩ (checkUser_mapGet s user)
    have hrowU : c1.Users = (fieldsLoop res i user fields (s.checkUser user)).1.Users := by
      rw [hu1, fieldsLoop_users res i user fields _ _ (checkUser_mapGet s user)]
    have hfat := (fieldsLoop_fatal res i user fields _ _ (checkUser_mapGet s user)).2
    rw [rowsLoop_cons]
    by_cases hall : ∀ f ∈ fields, ∃ cell, (column res f)[i]? = some cell
    · rw [if_pos (hfat.2 hall)]
      obtain ⟨sch2, c2, hs2, he2, hq2, hu2, hk2⟩ := ih (i + 1) c1 _ (hk1 hall) hq1 hrowU
      refine ⟨[.collector, .collector, .collector] ++ sch ++ sch2, c2, ?_, ?_, hq2, hu2, hk2⟩
      · intro t ht
        rcases List.mem_append.1 ht with h | h
        · rcases List.mem_append.1 h with h | h
          · simpa using h
          · exact hs t h
        · exact hs2 t h
      · rw [List.append_assoc, exec_append, h3]
        simp only [Option.some_bind]
        rw [exec_append, he]
        simpa using he2
    · rw [if_neg (fun h => hall (hfat.1 h))]
      refine ⟨[.collector, .collector, .collector] ++ sch, c1, ?_, ?_, hq1, hrowU, hk2 hall⟩
      · intro t ht
        rcases List.mem_append.1 ht with h | h
        · simpa using h
        · exact hs t h
      · rw [exec_append, h3]
        simpa using he

/-- Run alone, the steps of the collector goroutine leave the map that
`GetUserStatistics` computes. -/
theorem collector_alone (s : MysqlStatUsers) (q : QueryResult) :
    ∃ sch c1, (∀ t ∈ sch, t = Turn.collector) ∧
      (Goroutines.start s q).exec sch = some c1 ∧ c1.collector = [] ∧
      c1.Users = (s.GetUserStatistics q).1.Users ∧ c1.rangeRaced = false := by
  by_cases hskip : q.res.length = 0 ∨ q.err ≠ none
  · refine ⟨[], Goroutines.start s q, by simp, rfl, ?_, ?_, rfl⟩
    · simp only [Goroutines.start, getUserStatisticsOps]
      rw [if_pos hskip]
    · rw [GetUserStatistics_skip s q hskip]
      rfl
  · obtain ⟨sch, c1, hs, he, hq1, hu1, hk1⟩ :=
      rowsOps_exec q.res 0 (column q.res "user") (Goroutines.start s q) s
        (by simp only [Goroutines.start, getUserStatisticsOps]; rw [if_neg hskip])
        ⟨rfl, rfl, rfl⟩ rfl
    refine ⟨sch, c1, hs, he, hk1, ?_, hq1.2.2⟩
    rw [GetUserStatistics_run s q hskip]
    exact hu1

/-- C9 on the code: `FormatGraphite` ranges over the map without `nLock`.
With `bob` in the store and a result row for the new user `alice`, the
schedule "formatter enters the range and yields `bob`, collector locks,
collector inserts `alice`" is admitted by the lock: the key is inserted while
the range is in progress (one entry yielded, the function not returned), the
collector holding `nLock` all the while. -/
theorem FormatGraphite_range_not_under_lock :
    ((Goroutines.start sampleStore newUserResult).exec
        [.formatter, .formatter, .collector, .collector]).map
      (fun c => (c.ranging, c.returned, c.nLock, keys c.Users, c.rangeRaced)) =
    some (some 1, false, true, ["bob", "alice"], true) := by
  decide

end Userstat
